import Mathlib

/-!
Verification of the sharded block buffer cache of `kernel/bio.c`.

The C code is shallowly embedded: the buffer pool is a `List Buf`, each
shards membership list (the circular doubly-linked list reached from
`bcache.table[i]` via `.next`) is a `List Nat` of buffer indices with the
head corresponding to `table[i].next`, and the set of shard structural
spinlocks currently held by the running thread is tracked in the field
`held`.  Disk transfers performed by the external collaborator
`virtio_disk_rw` are recorded in an event log `disk`.  Operations that can
`panic` return `Option`: `none` is the fatal outcome.  Execution is
single-threaded: every blocking lock acquisition succeeds immediately, so
`acquire`/`release` pairs appear as pushes and pops on `held`.
-/

namespace BioSpec

/-- NBUCKET from bio.c line 36. -/
abbrev NBUCKET : Nat := 13

/-- HASH from bio.c line 37: `x % NBUCKET`, as a shard index. -/
def HASH (x : Nat) : Fin NBUCKET := ⟨x % NBUCKET, Nat.mod_lt x (by decide)⟩

/-- One buffer slot (struct buf, content not modelled): device id, block
number, valid flag, reference count, recency timestamp, and whether the
slot's sleeplock is held by the (single) running thread. -/
structure Buf where
  dev : Nat
  blockno : Nat
  valid : Bool
  refcnt : Nat
  timestamp : Nat
  slocked : Bool
  deriving Repr, DecidableEq

/-- A zero-initialized buffer, as C global structs start. -/
def buf0 : Buf := ⟨0, 0, false, 0, 0, false⟩

/-- One disk transfer performed by `virtio_disk_rw`. -/
structure DiskOp where
  dev : Nat
  blockno : Nat
  isWrite : Bool
  deriving Repr, DecidableEq

/-- The whole cache state: per-shard membership lists, the buffer pool,
the shard structural locks held by the running thread, and the disk
transfer log. -/
structure BCache where
  table : Fin NBUCKET → List Nat
  bufs : List Buf
  held : List (Fin NBUCKET)
  disk : List DiskOp

/-- Read buffer `j` of the pool (a C pointer dereference never fails;
out-of-range indices, which never occur in verified runs, give `buf0`). -/
def getBuf (bufs : List Buf) (j : Nat) : Buf := bufs.getD j buf0

/-- binit, bio.c lines 44-64: every shard list empty except shard 0,
which receives buffers 0..nbuf-1 pushed one by one at the head. -/
def binit (nbuf : Nat) : BCache :=
  { table := fun i => if i = 0 then (List.range nbuf).reverse else []
    bufs := List.replicate nbuf buf0
    held := []
    disk := [] }

/-- The hit scan of bget, bio.c lines 77-84: first index in the home
shard's list whose buffer matches (dev, blockno). -/
def findHit (bufs : List Buf) (dev blockno : Nat) : List Nat → Option Nat
  | [] => none
  | j :: rest =>
    if (getBuf bufs j).dev = dev ∧ (getBuf bufs j).blockno = blockno then some j
    else findHit bufs dev blockno rest

/-- The candidate-update test of bio.c line 103:
`(tmp->refcnt == 0) && (b == 0 || tmp->timestamp < b->timestamp)`. -/
def evictBetter (bufs : List Buf) (tmp : Nat) (b : Option Nat) : Bool :=
  match b with
  | none => (getBuf bufs tmp).refcnt == 0
  | some k => (getBuf bufs tmp).refcnt == 0 &&
      decide ((getBuf bufs tmp).timestamp < (getBuf bufs k).timestamp)

/-- The inner list walk of bio.c lines 102-105, threading the candidate
pointer `b` (`none` plays the role of the null pointer). -/
def lruScan (bufs : List Buf) : Option Nat → List Nat → Option Nat
  | b, [] => b
  | b, tmp :: rest =>
    if evictBetter bufs tmp b then lruScan bufs (some tmp) rest
    else lruScan bufs b rest

/-- The commit block of bio.c lines 106-129: if the victim `j` was found
in a foreign shard `i`, unlink it there, release lock `i`, and push it at
the head of the home shard's list; then overwrite its identity fields,
stamp the timestamp, release the home lock and acquire the sleeplock. -/
def commit (s : BCache) (id i : Fin NBUCKET) (j : Nat)
    (dev blockno ticks : Nat) : BCache :=
  if i = id then
    { s with
      bufs := s.bufs.set j ⟨dev, blockno, false, 1, ticks, true⟩
      held := s.held.erase id }
  else
    { s with
      table := Function.update (Function.update s.table i ((s.table i).erase j))
        id (j :: s.table id)
      bufs := s.bufs.set j ⟨dev, blockno, false, 1, ticks, true⟩
      held := (s.held.erase i).erase id }

/-- The round-robin eviction pass of bio.c lines 90-134.  `cycle` counts
the remaining shard visits (the loop runs while `cycle != NBUCKET`); when
it reaches 0 the pass is over and the function panics (`none`).  For a
foreign shard the structural lock is acquired at the top of the visit and
released when the visit finds no candidate (single-threaded, the
`holding`-guarded acquire of lines 95-100 always succeeds; see
`foreignShardAction` for the guard itself). -/
def bgetScanLoop (dev blockno ticks : Nat) (id : Fin NBUCKET) :
    Nat → Fin NBUCKET → BCache → Option (BCache × Nat)
  | 0, _, _ => none
  | cycle + 1, i, s =>
    if i = id then
      match lruScan s.bufs none (s.table i) with
      | some j => some (commit s id i j dev blockno ticks, j)
      | none => bgetScanLoop dev blockno ticks id cycle (i + 1) s
    else
      match lruScan s.bufs none (s.table i) with
      | some j =>
        some (commit { s with held := i :: s.held } id i j dev blockno ticks, j)
      | none =>
        bgetScanLoop dev blockno ticks id cycle (i + 1)
          { s with held := (i :: s.held).erase i }

/-- bget, bio.c lines 69-136.  Takes the home shard lock, scans it for a
hit (incrementing the refcount, releasing the shard lock and taking the
sleeplock on success), otherwise runs the eviction pass.  `none` is the
`panic("bget: no buffers")` outcome. -/
def bget (s : BCache) (dev blockno ticks : Nat) : Option (BCache × Nat) :=
  match findHit s.bufs dev blockno (s.table (HASH blockno)) with
  | some j =>
    some ({ s with
            bufs := s.bufs.set j
              { getBuf s.bufs j with
                refcnt := (getBuf s.bufs j).refcnt + 1, slocked := true }
            held := (HASH blockno :: s.held).erase (HASH blockno) }, j)
  | none =>
    bgetScanLoop dev blockno ticks (HASH blockno) NBUCKET (HASH blockno)
      { s with held := HASH blockno :: s.held }

/-- bread, bio.c lines 139-150: bget, then a disk read exactly when the
returned slot is invalid, after which the slot is marked valid. -/
def bread (s : BCache) (dev blockno ticks : Nat) : Option (BCache × Nat) :=
  match bget s dev blockno ticks with
  | none => none
  | some (s1, j) =>
    if (getBuf s1.bufs j).valid then some (s1, j)
    else
      some ({ s1 with
              bufs := s1.bufs.set j { getBuf s1.bufs j with valid := true }
              disk := s1.disk ++
                [⟨(getBuf s1.bufs j).dev, (getBuf s1.bufs j).blockno, false⟩] }, j)

/-- bwrite, bio.c lines 153-159: panic unless the sleeplock is held,
otherwise a disk write of the slot's block; no cache field changes. -/
def bwrite (s : BCache) (j : Nat) : Option BCache :=
  if (getBuf s.bufs j).slocked then
    some { s with
           disk := s.disk ++ [⟨(getBuf s.bufs j).dev, (getBuf s.bufs j).blockno, true⟩] }
  else none

/-- brelse, bio.c lines 163-178: panic unless the sleeplock is held,
otherwise release it and, under the shard lock (acquired and released
within the call, net zero on `held`), decrement the refcount and stamp
the timestamp unconditionally. -/
def brelse (s : BCache) (j : Nat) (ticks : Nat) : Option BCache :=
  if (getBuf s.bufs j).slocked then
    some { s with
           bufs := s.bufs.set j
             { getBuf s.bufs j with
               slocked := false, refcnt := (getBuf s.bufs j).refcnt - 1,
               timestamp := ticks } }
  else none

/-- bpin, bio.c lines 180-186: increment the refcount under the shard
lock (net zero on `held`). -/
def bpin (s : BCache) (j : Nat) : BCache :=
  { s with
    bufs := s.bufs.set j
      ({ getBuf s.bufs j with refcnt := (getBuf s.bufs j).refcnt + 1 }) }

/-- bunpin, bio.c lines 188-194: decrement the refcount under the shard
lock; the timestamp is not touched. -/
def bunpin (s : BCache) (j : Nat) : BCache :=
  { s with
    bufs := s.bufs.set j
      ({ getBuf s.bufs j with refcnt := (getBuf s.bufs j).refcnt - 1 }) }

/-- The home-shard computation of bio.c line 73 (`id = HASH(blockno)`),
written with both request parameters in scope as in `bget(dev, blockno)`:
the device id is not consulted. -/
def bgetHome (dev blockno : Nat) : Fin NBUCKET :=
  HASH blockno

/-- Modelled from the spec (spinlock.c is not under src/): the state of a
shard structural spinlock is the thread currently holding it (`none` when
free), and `holding t lk` is the check whether the current thread `t`
itself holds the lock, the explicit self-deadlock check the spec
describes for the eviction scan. -/
def holding (t : Nat) (lk : Option Nat) : Bool :=
  lk == some t

/-- What the scan does at a foreign shard's structural lock. -/
inductive ScanLockAction where
  | blockingAcquire
  | skip
  deriving Repr, DecidableEq

/-- The guard of bio.c lines 95-100 for a foreign shard `i != id`:
`if (!holding(&bcache.lock[i])) acquire(&bcache.lock[i]); else continue;`
where `acquire` is the same blocking spinlock acquire used on the home
shard at line 74. -/
def foreignShardAction (t : Nat) (lk : Option Nat) : ScanLockAction :=
  if !(holding t lk) then ScanLockAction.blockingAcquire else ScanLockAction.skip

/-- The structural invariant of the sharded cache: every shard list is
duplicate-free and contains only pool indices, and every slot of the pool
lies in exactly one shard list, the one its block number hashes to. -/
abbrev ShardInv (s : BCache) : Prop :=
  (∀ i : Fin NBUCKET, (s.table i).Nodup) ∧
  (∀ i : Fin NBUCKET, ∀ j ∈ s.table i, j < s.bufs.length) ∧
  (∀ j < s.bufs.length, ∀ i : Fin NBUCKET,
    (j ∈ s.table i ↔ i = HASH (getBuf s.bufs j).blockno))

/-- A two-slot cache: slot 0 (block 0, timestamp 10) lives in shard 0,
slot 1 (block 1, timestamp 5) lives in shard 1; both are idle. -/
def exTwo : BCache :=
  { table := fun i => if i = 0 then [0] else if i = 1 then [1] else []
    bufs := [⟨0, 0, true, 0, 10, false⟩, ⟨0, 1, true, 0, 5, false⟩]
    held := []
    disk := [] }

/-- A one-slot cache whose slot is sleeplocked with reference count 2. -/
def exRel : BCache :=
  { table := fun i => if i = 0 then [0] else []
    bufs := [⟨0, 0, true, 2, 7, true⟩]
    held := []
    disk := [] }

/-- A one-slot cache whose slot is pinned once (reference count 1). -/
def exPin : BCache :=
  { table := fun i => if i = 0 then [0] else []
    bufs := [⟨0, 0, true, 1, 7, false⟩]
    held := []
    disk := [] }

/-- A one-slot cache whose slot is busy (reference count 1). -/
def exBusy : BCache :=
  { table := fun i => if i = 0 then [0] else []
    bufs := [⟨0, 0, true, 1, 10, false⟩]
    held := []
    disk := [] }

/-- A one-slot cache whose slot (block 3, shard 3) is exclusively locked. -/
def exLocked : BCache :=
  { table := fun i => if i = 3 then [0] else []
    bufs := [⟨2, 3, true, 1, 0, true⟩]
    held := []
    disk := [] }

/-- A three-slot cache: slot 0 (block 0, busy) in shard 0, slot 1
(block 1, idle, timestamp 100) in shard 1, slot 2 (block 2, idle,
timestamp 5) in shard 2. -/
def exSkip : BCache :=
  { table := fun i => if i = 0 then [0] else if i = 1 then [1] else if i = 2 then [2] else []
    bufs := [⟨0, 0, true, 1, 10, false⟩, ⟨0, 1, true, 0, 100, false⟩, ⟨0, 2, true, 0, 5, false⟩]
    held := []
    disk := [] }

/-- The state `exSkip` after a miss for (0, 13): the home shard 0 was
busy, so the scan committed in shard 1, relocating slot 1 into shard 0
(the table field is the commit's literal relink of the two lists). -/
def exSkipAfter : BCache :=
  { table := Function.update (Function.update exSkip.table 1 ((exSkip.table 1).erase 1)) 0
      (1 :: exSkip.table 0)
    bufs := [⟨0, 0, true, 1, 10, false⟩, ⟨0, 13, false, 1, 100, true⟩, ⟨0, 2, true, 0, 5, false⟩]
    held := []
    disk := [] }

/-- The state `exTwo` after a miss for (1, 14): slot 1 was reassigned. -/
def exTwoAfter : BCache :=
  { table := fun i => if i = 0 then [0] else if i = 1 then [1] else []
    bufs := [⟨0, 0, true, 0, 10, false⟩, ⟨1, 14, false, 1, 50, true⟩]
    held := []
    disk := [] }

/-- The state `exTwo` after a hit for (0, 1): slot 1 got a reference. -/
def exTwoHit : BCache :=
  { table := fun i => if i = 0 then [0] else if i = 1 then [1] else []
    bufs := [⟨0, 0, true, 0, 10, false⟩, ⟨0, 1, true, 1, 5, true⟩]
    held := []
    disk := [] }

/-- The state `exRel` after releasing slot 0 at tick 42. -/
def exRelAfter : BCache :=
  { table := fun i => if i = 0 then [0] else []
    bufs := [⟨0, 0, true, 1, 42, false⟩]
    held := []
    disk := [] }

/-- The state `exLocked` after writing slot 0: one disk write logged. -/
def exLockedAfter : BCache :=
  { table := fun i => if i = 3 then [0] else []
    bufs := [⟨2, 3, true, 1, 0, true⟩]
    held := []
    disk := [⟨2, 3, true⟩] }

/-! Basic lemmas about pool reads and writes. -/

lemma getBuf_set_self : ∀ (l : List Buf) (j : Nat) (b : Buf), j < l.length →
    getBuf (l.set j b) j = b
  | [], _, _, h => absurd h (by simp)
  | _ :: _, 0, _, _ => rfl
  | x :: xs, j+1, b, h => by
    show getBuf (xs.set j b) j = b
    exact getBuf_set_self xs j b (Nat.lt_of_succ_lt_succ h)

lemma getBuf_set_ne : ∀ (l : List Buf) (j k : Nat) (b : Buf), k ≠ j →
    getBuf (l.set j b) k = getBuf l k
  | [], _, _, _, _ => rfl
  | _ :: _, 0, 0, _, h => absurd rfl h
  | _ :: _, 0, _+1, _, _ => rfl
  | _ :: _, _+1, 0, _, _ => rfl
  | _ :: xs, j+1, k+1, b, h => by
    show getBuf (xs.set j b) k = getBuf xs k
    exact getBuf_set_ne xs j k b (fun hh => h (congrArg Nat.succ hh))

/-! Lemmas about the hit scan. -/

lemma findHit_some (bufs : List Buf) (dev blockno : Nat) :
    ∀ (l : List Nat) (j : Nat), findHit bufs dev blockno l = some j →
      j ∈ l ∧ (getBuf bufs j).dev = dev ∧ (getBuf bufs j).blockno = blockno
  | [], j, h => by simp [findHit] at h
  | x :: rest, j, h => by
    by_cases hc : (getBuf bufs x).dev = dev ∧ (getBuf bufs x).blockno = blockno
    · simp only [findHit, if_pos hc] at h
      cases h
      exact ⟨List.mem_cons_self x rest, hc.1, hc.2⟩
    · simp only [findHit, if_neg hc] at h
      obtain ⟨h1, h2, h3⟩ := findHit_some bufs dev blockno rest j h
      exact ⟨List.mem_cons_of_mem x h1, h2, h3⟩

lemma findHit_eq (bufs : List Buf) (dev blockno : Nat) :
    ∀ (l : List Nat) (j : Nat), j ∈ l →
      (getBuf bufs j).dev = dev → (getBuf bufs j).blockno = blockno →
      (∀ k ∈ l, (getBuf bufs k).dev = dev → (getBuf bufs k).blockno = blockno → k = j) →
      findHit bufs dev blockno l = some j
  | [], j, hj, _, _, _ => absurd hj (List.not_mem_nil j)
  | x :: rest, j, hj, hdev, hbl, huniq => by
    by_cases hc : (getBuf bufs x).dev = dev ∧ (getBuf bufs x).blockno = blockno
    · simp only [findHit, if_pos hc]
      exact congrArg some (huniq x (List.mem_cons_self x rest) hc.1 hc.2)
    · simp only [findHit, if_neg hc]
      have hjx : j ≠ x := by
        rintro rfl
        exact hc ⟨hdev, hbl⟩
      have hj' : j ∈ rest := by
        rcases List.mem_cons.mp hj with h | h
        · exact absurd h hjx
        · exact h
      exact findHit_eq bufs dev blockno rest j hj' hdev hbl
        (fun k hk => huniq k (List.mem_cons_of_mem x hk))

/-! Lemmas about the candidate test and the inner eviction walk. -/

lemma evictBetter_true {bufs : List Buf} {tmp : Nat} {acc : Option Nat}
    (h : evictBetter bufs tmp acc = true) :
    (getBuf bufs tmp).refcnt = 0 ∧
    ∀ a, acc = some a →
      (getBuf bufs tmp).timestamp < (getBuf bufs a).timestamp := by
  cases acc with
  | none =>
    refine ⟨by simpa [evictBetter] using h, ?_⟩
    rintro a ⟨⟩
  | some k =>
    simp only [evictBetter, Bool.and_eq_true, beq_iff_eq, decide_eq_true_eq] at h
    exact ⟨h.1, fun a ha => by cases ha; exact h.2⟩

lemma evictBetter_false_some {bufs : List Buf} {tmp a : Nat}
    (h : evictBetter bufs tmp (some a) = false)
    (hidle : (getBuf bufs tmp).refcnt = 0) :
    (getBuf bufs a).timestamp ≤ (getBuf bufs tmp).timestamp := by
  simp only [evictBetter, Bool.and_eq_false_iff, beq_eq_false_iff_ne, ne_eq,
    decide_eq_false_iff_not, not_lt] at h
  rcases h with h | h
  · exact absurd hidle h
  · exact h

lemma evictBetter_none_idle {bufs : List Buf} {tmp : Nat}
    (hidle : (getBuf bufs tmp).refcnt = 0) :
    evictBetter bufs tmp none = true := by
  simp [evictBetter, hidle]

lemma evictBetter_busy {bufs : List Buf} {tmp : Nat} (acc : Option Nat)
    (h : (getBuf bufs tmp).refcnt ≠ 0) :
    evictBetter bufs tmp acc = false := by
  cases acc <;> simp [evictBetter, h]

lemma lruScan_mem (bufs : List Buf) :
    ∀ (l : List Nat) (acc : Option Nat) (j : Nat),
      lruScan bufs acc l = some j → acc = some j ∨ j ∈ l
  | [], acc, j, h => Or.inl h
  | tmp :: rest, acc, j, h => by
    simp only [lruScan] at h
    by_cases hc : evictBetter bufs tmp acc = true
    · rw [if_pos hc] at h
      rcases lruScan_mem bufs rest (some tmp) j h with h1 | h1
      · cases h1
        exact Or.inr (List.mem_cons_self tmp rest)
      · exact Or.inr (List.mem_cons_of_mem tmp h1)
    · rw [if_neg hc] at h
      rcases lruScan_mem bufs rest acc j h with h1 | h1
      · exact Or.inl h1
      · exact Or.inr (List.mem_cons_of_mem tmp h1)

lemma lruScan_idle (bufs : List Buf) :
    ∀ (l : List Nat) (acc : Option Nat) (j : Nat),
      (∀ k, acc = some k → (getBuf bufs k).refcnt = 0) →
      lruScan bufs acc l = some j → (getBuf bufs j).refcnt = 0
  | [], acc, j, hacc, h => hacc j h
  | tmp :: rest, acc, j, hacc, h => by
    simp only [lruScan] at h
    by_cases hc : evictBetter bufs tmp acc = true
    · rw [if_pos hc] at h
      exact lruScan_idle bufs rest (some tmp) j
        (fun k hk => by cases hk; exact (evictBetter_true hc).1) h
    · rw [if_neg hc] at h
      exact lruScan_idle bufs rest acc j hacc h

lemma lruScan_min (bufs : List Buf) :
    ∀ (l : List Nat) (acc : Option Nat) (j : Nat),
      lruScan bufs acc l = some j →
      (∀ k ∈ l, (getBuf bufs k).refcnt = 0 →
        (getBuf bufs j).timestamp ≤ (getBuf bufs k).timestamp) ∧
      (∀ a, acc = some a →
        (getBuf bufs j).timestamp ≤ (getBuf bufs a).timestamp)
  | [], acc, j, h => by
    have h' : acc = some j := h
    refine ⟨fun k hk => absurd hk (List.not_mem_nil k), ?_⟩
    rintro a ha
    rw [h'] at ha
    cases ha
    exact Nat.le_refl _
  | tmp :: rest, acc, j, h => by
    simp only [lruScan] at h
    by_cases hc : evictBetter bufs tmp acc = true
    · rw [if_pos hc] at h
      obtain ⟨hrest, hacc⟩ := lruScan_min bufs rest (some tmp) j h
      have hjt : (getBuf bufs j).timestamp ≤ (getBuf bufs tmp).timestamp :=
        hacc tmp rfl
      refine ⟨?_, ?_⟩
      · intro k hk hkidle
        rcases List.mem_cons.mp hk with rfl | hk'
        · exact hjt
        · exact hrest k hk' hkidle
      · intro a ha
        have := (evictBetter_true hc).2 a ha
        exact Nat.le_of_lt (Nat.lt_of_le_of_lt hjt this)
    · rw [if_neg hc] at h
      obtain ⟨hrest, hacc⟩ := lruScan_min bufs rest acc j h
      refine ⟨?_, hacc⟩
      intro k hk hkidle
      rcases List.mem_cons.mp hk with rfl | hk'
      · cases hacc2 : acc with
        | none =>
          rw [hacc2] at hc
          exact absurd (evictBetter_none_idle hkidle) hc
        | some a =>
          rw [hacc2] at hc
          have h1 : (getBuf bufs a).timestamp ≤ (getBuf bufs k).timestamp :=
            evictBetter_false_some (Bool.eq_false_iff.mpr hc) hkidle
          exact Nat.le_trans (hacc a hacc2) h1
      · exact hrest k hk' hkidle

lemma lruScan_busy (bufs : List Buf) :
    ∀ (l : List Nat) (acc : Option Nat),
      (∀ k ∈ l, (getBuf bufs k).refcnt ≠ 0) → lruScan bufs acc l = acc
  | [], _, _ => rfl
  | tmp :: rest, acc, hbusy => by
    simp only [lruScan]
    rw [if_neg (by simp [evictBetter_busy acc (hbusy tmp (List.mem_cons_self tmp rest))])]
    exact lruScan_busy bufs rest acc (fun k hk => hbusy k (List.mem_cons_of_mem tmp hk))

/-- When the inner walk ends with a null candidate, it started with one
and every listed slot is busy. -/
lemma lruScan_eq_none (bufs : List Buf) :
    ∀ (l : List Nat) (acc : Option Nat),
      lruScan bufs acc l = none →
      acc = none ∧ ∀ k ∈ l, (getBuf bufs k).refcnt ≠ 0
  | [], _, h => ⟨h, fun k hk => absurd hk (List.not_mem_nil k)⟩
  | tmp :: rest, acc, h => by
    simp only [lruScan] at h
    by_cases hc : evictBetter bufs tmp acc = true
    · rw [if_pos hc] at h
      exact absurd (lruScan_eq_none bufs rest (some tmp) h).1
        (fun hh => Option.noConfusion hh)
    · rw [if_neg hc] at h
      obtain ⟨hacc, hrest⟩ := lruScan_eq_none bufs rest acc h
      subst hacc
      refine ⟨rfl, ?_⟩
      intro k hk
      rcases List.mem_cons.mp hk with rfl | hk'
      · intro hidle
        exact hc (evictBetter_none_idle hidle)
      · exact hrest k hk'

/-! The eviction pass: postcondition of a successful scan. -/

lemma scanLoop_post (dev blockno ticks : Nat) (id : Fin NBUCKET) :
    ∀ (fuel : Nat) (i : Fin NBUCKET) (s s' : BCache) (j : Nat),
      (∀ i' : Fin NBUCKET, (s.table i').Nodup) →
      (∀ (k : Nat) (i1 i2 : Fin NBUCKET), i1 ≠ i2 → k ∈ s.table i1 → k ∉ s.table i2) →
      (∀ i' : Fin NBUCKET, ∀ k ∈ s.table i', k < s.bufs.length) →
      bgetScanLoop dev blockno ticks id fuel i s = some (s', j) →
      getBuf s'.bufs j = ⟨dev, blockno, false, 1, ticks, true⟩ ∧
      j ∈ s'.table id ∧
      (∀ i' : Fin NBUCKET, i' ≠ id → j ∉ s'.table i') ∧
      s'.held = s.held.erase id ∧
      (getBuf s.bufs j).refcnt = 0
  | 0, _, _, _, _, _, _, _, h => by simp [bgetScanLoop] at h
  | fuel+1, i, s, s', j, hnd, hdisj, hrange, h => by
    simp only [bgetScanLoop] at h
    by_cases hi : i = id
    · rw [if_pos hi] at h
      cases hscan : lruScan s.bufs none (s.table i) with
      | some j0 =>
        rw [hscan] at h
        injection h with h1
        injection h1 with hs hj
        have hj2 : j = j0 := hj.symm
        subst hj2
        subst hs
        have hmem : j ∈ s.table i := by
          rcases lruScan_mem s.bufs (s.table i) none j hscan with h1 | h1
          · exact Option.noConfusion h1
          · exact h1
        have hlen : j < s.bufs.length := hrange i j hmem
        refine ⟨?_, ?_, ?_, ?_, ?_⟩
        · show getBuf ((commit s id i j dev blockno ticks).bufs) j = _
          simp only [commit, if_pos hi]
          exact getBuf_set_self s.bufs j _ hlen
        · show j ∈ (commit s id i j dev blockno ticks).table id
          simp only [commit, if_pos hi]
          rw [← hi]
          exact hmem
        · intro i' hi'
          show j ∉ (commit s id i j dev blockno ticks).table i'
          simp only [commit, if_pos hi]
          exact hdisj j i i' (fun hh => hi' (hh.symm.trans hi)) hmem
        · show (commit s id i j dev blockno ticks).held = s.held.erase id
          simp only [commit, if_pos hi]
        · exact lruScan_idle s.bufs (s.table i) none j
            (fun k hk => Option.noConfusion hk) hscan
      | none =>
        rw [hscan] at h
        exact scanLoop_post dev blockno ticks id fuel (i + 1) s s' j hnd hdisj hrange h
    · rw [if_neg hi] at h
      cases hscan : lruScan s.bufs none (s.table i) with
      | some j0 =>
        rw [hscan] at h
        injection h with h1
        injection h1 with hs hj
        have hj2 : j = j0 := hj.symm
        subst hj2
        subst hs
        have hmem : j ∈ s.table i := by
          rcases lruScan_mem s.bufs (s.table i) none j hscan with h1 | h1
          · exact Option.noConfusion h1
          · exact h1
        have hlen : j < s.bufs.length := hrange i j hmem
        refine ⟨?_, ?_, ?_, ?_, ?_⟩
        · show getBuf ((commit { s with held := i :: s.held } id i j dev blockno ticks).bufs) j = _
          simp only [commit, if_neg hi]
          exact getBuf_set_self s.bufs j _ hlen
        · show j ∈ (commit { s with held := i :: s.held } id i j dev blockno ticks).table id
          simp only [commit, if_neg hi]
          rw [Function.update_same]
          exact List.mem_cons_self j _
        · intro i' hi'
          show j ∉ (commit { s with held := i :: s.held } id i j dev blockno ticks).table i'
          simp only [commit, if_neg hi]
          rw [Function.update_noteq hi']
          by_cases hii : i' = i
          · subst hii
            rw [Function.update_same]
            exact (hnd i').not_mem_erase
          · rw [Function.update_noteq hii]
            exact hdisj j i i' (fun hh => hii hh.symm) hmem
        · show (commit { s with held := i :: s.held } id i j dev blockno ticks).held
            = s.held.erase id
          simp only [commit, if_neg hi]
          show ((i :: s.held).erase i).erase id = s.held.erase id
          rw [List.erase_cons_head]
        · exact lruScan_idle s.bufs (s.table i) none j
            (fun k hk => Option.noConfusion hk) hscan
      | none =>
        rw [hscan] at h
        have hout := scanLoop_post dev blockno ticks id fuel (i + 1)
          { s with held := (i :: s.held).erase i } s' j hnd hdisj hrange h
        refine ⟨hout.1, hout.2.1, hout.2.2.1, ?_, hout.2.2.2.2⟩
        rw [hout.2.2.2.1]
        show ((i :: s.held).erase i).erase id = s.held.erase id
        rw [List.erase_cons_head]

/-- The victim of a successful eviction pass had reference count 0 in the
state the pass scanned. -/
lemma scanLoop_victim_idle (dev blockno ticks : Nat) (id : Fin NBUCKET) :
    ∀ (fuel : Nat) (i : Fin NBUCKET) (s s' : BCache) (j : Nat),
      bgetScanLoop dev blockno ticks id fuel i s = some (s', j) →
      (getBuf s.bufs j).refcnt = 0
  | 0, _, _, _, _, h => by simp [bgetScanLoop] at h
  | fuel+1, i, s, s', j, h => by
    simp only [bgetScanLoop] at h
    by_cases hi : i = id
    · rw [if_pos hi] at h
      cases hscan : lruScan s.bufs none (s.table i) with
      | some j0 =>
        rw [hscan] at h
        injection h with h1
        injection h1 with _ hj
        have hj2 : j = j0 := hj.symm
        subst hj2
        exact lruScan_idle s.bufs (s.table i) none j
          (fun k hk => Option.noConfusion hk) hscan
      | none =>
        rw [hscan] at h
        exact scanLoop_victim_idle dev blockno ticks id fuel (i + 1) s s' j h
    · rw [if_neg hi] at h
      cases hscan : lruScan s.bufs none (s.table i) with
      | some j0 =>
        rw [hscan] at h
        injection h with h1
        injection h1 with _ hj
        have hj2 : j = j0 := hj.symm
        subst hj2
        exact lruScan_idle s.bufs (s.table i) none j
          (fun k hk => Option.noConfusion hk) hscan
      | none =>
        rw [hscan] at h
        exact scanLoop_victim_idle dev blockno ticks id fuel (i + 1)
          { s with held := (i :: s.held).erase i } s' j h

/-- When every listed slot is busy the pass finds nothing and panics. -/
lemma scanLoop_busy (dev blockno ticks : Nat) (id : Fin NBUCKET) :
    ∀ (fuel : Nat) (i : Fin NBUCKET) (s : BCache),
      (∀ i' : Fin NBUCKET, ∀ k ∈ s.table i', (getBuf s.bufs k).refcnt ≠ 0) →
      bgetScanLoop dev blockno ticks id fuel i s = none
  | 0, _, _, _ => rfl
  | fuel+1, i, s, hbusy => by
    simp only [bgetScanLoop]
    by_cases hi : i = id
    · rw [if_pos hi, lruScan_busy s.bufs (s.table i) none (hbusy i)]
      exact scanLoop_busy dev blockno ticks id fuel (i + 1) s hbusy
    · rw [if_neg hi, lruScan_busy s.bufs (s.table i) none (hbusy i)]
      exact scanLoop_busy dev blockno ticks id fuel (i + 1)
        { s with held := (i :: s.held).erase i } hbusy

/-- A successful eviction pass commits in the first visited shard (round
robin from `i`, wrapping via `Fin` addition) whose list contains an idle
slot: every shard visited before it held only busy slots, the victim lies
in that shard, is idle, and has the smallest timestamp among that shard's
idle slots. -/
lemma scanLoop_first_nonempty (dev blockno ticks : Nat) (id : Fin NBUCKET) :
    ∀ (fuel : Nat) (i : Fin NBUCKET) (s s' : BCache) (j : Nat),
      bgetScanLoop dev blockno ticks id fuel i s = some (s', j) →
      ∃ t : Nat, t < fuel ∧
        (∀ t' : Nat, t' < t → ∀ k ∈ s.table (i + (t' : Fin NBUCKET)),
          (getBuf s.bufs k).refcnt ≠ 0) ∧
        j ∈ s.table (i + (t : Fin NBUCKET)) ∧
        (getBuf s.bufs j).refcnt = 0 ∧
        (∀ k ∈ s.table (i + (t : Fin NBUCKET)), (getBuf s.bufs k).refcnt = 0 →
          (getBuf s.bufs j).timestamp ≤ (getBuf s.bufs k).timestamp)
  | 0, _, _, _, _, h => by simp [bgetScanLoop] at h
  | fuel+1, i, s, s', j, h => by
    simp only [bgetScanLoop] at h
    have hz : i + ((0 : Nat) : Fin NBUCKET) = i := by
      rw [Nat.cast_zero, add_zero]
    have hstep : ∀ u : Nat,
        i + ((u + 1 : Nat) : Fin NBUCKET) = (i + 1) + (u : Fin NBUCKET) := by
      intro u
      push_cast
      ring
    have hcases : lruScan s.bufs none (s.table i) = some j ∨
        (lruScan s.bufs none (s.table i) = none ∧
          ∃ s2 : BCache, s2.table = s.table ∧ s2.bufs = s.bufs ∧
            bgetScanLoop dev blockno ticks id fuel (i + 1) s2 = some (s', j)) := by
      by_cases hi : i = id
      · rw [if_pos hi] at h
        cases hscan : lruScan s.bufs none (s.table i) with
        | some j0 =>
          rw [hscan] at h
          injection h with h1
          injection h1 with _ hj
          exact Or.inl (congrArg some hj)
        | none =>
          rw [hscan] at h
          exact Or.inr ⟨rfl, s, rfl, rfl, h⟩
      · rw [if_neg hi] at h
        cases hscan : lruScan s.bufs none (s.table i) with
        | some j0 =>
          rw [hscan] at h
          injection h with h1
          injection h1 with _ hj
          exact Or.inl (congrArg some hj)
        | none =>
          rw [hscan] at h
          exact Or.inr ⟨rfl, { s with held := (i :: s.held).erase i }, rfl, rfl, h⟩
    rcases hcases with hscan | ⟨hscan, s2, ht2, hb2, hrec⟩
    · refine ⟨0, Nat.succ_pos fuel, ?_, ?_, ?_, ?_⟩
      · intro t' ht'
        exact absurd ht' (Nat.not_lt_zero t')
      · rw [hz]
        rcases lruScan_mem s.bufs (s.table i) none j hscan with h1 | h1
        · exact Option.noConfusion h1
        · exact h1
      · exact lruScan_idle s.bufs (s.table i) none j
          (fun k hk => Option.noConfusion hk) hscan
      · rw [hz]
        exact fun k hk hkidle =>
          (lruScan_min s.bufs (s.table i) none j hscan).1 k hk hkidle
    · obtain ⟨t, ht, hprev, hmem, hidle, hmin⟩ :=
        scanLoop_first_nonempty dev blockno ticks id fuel (i + 1) s2 s' j hrec
      rw [ht2, hb2] at hprev
      rw [ht2, hb2] at hmin
      rw [ht2] at hmem
      rw [hb2] at hidle
      have hbusy0 : ∀ k ∈ s.table i, (getBuf s.bufs k).refcnt ≠ 0 :=
        (lruScan_eq_none s.bufs (s.table i) none hscan).2
      refine ⟨t + 1, Nat.succ_lt_succ ht, ?_, ?_, hidle, ?_⟩
      · intro t' ht'
        cases t' with
        | zero =>
          rw [hz]
          exact hbusy0
        | succ u =>
          rw [hstep u]
          exact hprev u (Nat.lt_of_succ_lt_succ ht')
      · rw [hstep t]
        exact hmem
      · rw [hstep t]
        exact hmin

/-! Projections of the structural invariant. -/

lemma shardInv_nodup {s : BCache} (h : ShardInv s) :
    ∀ i : Fin NBUCKET, (s.table i).Nodup := h.1

lemma shardInv_range {s : BCache} (h : ShardInv s) :
    ∀ i : Fin NBUCKET, ∀ k ∈ s.table i, k < s.bufs.length := h.2.1

lemma shardInv_home {s : BCache} (h : ShardInv s) :
    ∀ j < s.bufs.length, ∀ i : Fin NBUCKET,
      (j ∈ s.table i ↔ i = HASH (getBuf s.bufs j).blockno) := h.2.2

lemma shardInv_disj {s : BCache} (h : ShardInv s) :
    ∀ (k : Nat) (i1 i2 : Fin NBUCKET), i1 ≠ i2 → k ∈ s.table i1 → k ∉ s.table i2 := by
  intro k i1 i2 hne h1 h2
  have hk : k < s.bufs.length := shardInv_range h i1 k h1
  have e1 := (shardInv_home h k hk i1).mp h1
  have e2 := (shardInv_home h k hk i2).mp h2
  exact hne (e1.trans e2.symm)

/-! Preservation of the structural invariant. -/

lemma commit_shardInv (s : BCache) (dev blockno ticks : Nat) (i : Fin NBUCKET) (j : Nat)
    (hinv : ShardInv s) (hmem : j ∈ s.table i) :
    ShardInv (commit s (HASH blockno) i j dev blockno ticks) := by
  have hlen : j < s.bufs.length := shardInv_range hinv i j hmem
  have hhome : i = HASH (getBuf s.bufs j).blockno := (shardInv_home hinv j hlen i).mp hmem
  by_cases hi : i = HASH blockno
  · unfold commit
    rw [if_pos hi]
    refine ⟨hinv.1, ?_, ?_⟩ <;> dsimp only
    · intro i' k hk
      rw [List.length_set]
      exact shardInv_range hinv i' k hk
    · intro k hk i'
      rw [List.length_set] at hk
      by_cases hkj : k = j
      · subst hkj
        have hb : (getBuf (s.bufs.set k ⟨dev, blockno, false, 1, ticks, true⟩) k).blockno
            = blockno := by
          rw [getBuf_set_self s.bufs k _ hlen]
        rw [hb, shardInv_home hinv k hlen i', ← hhome, hi]
      · have hb : getBuf (s.bufs.set j ⟨dev, blockno, false, 1, ticks, true⟩) k
            = getBuf s.bufs k := getBuf_set_ne s.bufs j k _ hkj
        rw [hb]
        exact shardInv_home hinv k hk i'
  · have hjid : j ∉ s.table (HASH blockno) := fun hmem2 =>
      hi ((((shardInv_home hinv j hlen (HASH blockno)).mp hmem2).trans hhome.symm).symm)
    unfold commit
    rw [if_neg hi]
    refine ⟨?_, ?_, ?_⟩ <;> dsimp only
    · intro i'
      by_cases h1 : i' = HASH blockno
      · subst h1
        rw [Function.update_same]
        exact List.nodup_cons.mpr ⟨hjid, hinv.1 _⟩
      · rw [Function.update_noteq h1]
        by_cases h2 : i' = i
        · subst h2
          rw [Function.update_same]
          exact (hinv.1 _).erase j
        · rw [Function.update_noteq h2]
          exact hinv.1 i'
    · intro i' k hk
      rw [List.length_set]
      by_cases h1 : i' = HASH blockno
      · subst h1
        rw [Function.update_same] at hk
        rcases List.mem_cons.mp hk with h | h
        · subst h
          exact hlen
        · exact shardInv_range hinv _ k h
      · rw [Function.update_noteq h1] at hk
        by_cases h2 : i' = i
        · subst h2
          rw [Function.update_same] at hk
          exact shardInv_range hinv _ k (List.mem_of_mem_erase hk)
        · rw [Function.update_noteq h2] at hk
          exact shardInv_range hinv i' k hk
    · intro k hk i'
      rw [List.length_set] at hk
      by_cases hkj : k = j
      · subst hkj
        have hb : (getBuf (s.bufs.set k ⟨dev, blockno, false, 1, ticks, true⟩) k).blockno
            = blockno := by
          rw [getBuf_set_self s.bufs k _ hlen]
        rw [hb]
        by_cases h1 : i' = HASH blockno
        · subst h1
          rw [Function.update_same]
          exact iff_of_true (List.mem_cons_self _ _) rfl
        · rw [Function.update_noteq h1]
          by_cases h2 : i' = i
          · subst h2
            rw [Function.update_same]
            exact iff_of_false (hinv.1 _).not_mem_erase h1
          · rw [Function.update_noteq h2]
            exact iff_of_false
              (fun hc => h2 (((shardInv_home hinv k hlen i').mp hc).trans hhome.symm))
              h1
      · have hb : getBuf (s.bufs.set j ⟨dev, blockno, false, 1, ticks, true⟩) k
            = getBuf s.bufs k := getBuf_set_ne s.bufs j k _ hkj
        rw [hb]
        by_cases h1 : i' = HASH blockno
        · subst h1
          rw [Function.update_same]
          constructor
          · intro hc
            rcases List.mem_cons.mp hc with h | h
            · exact absurd h hkj
            · exact (shardInv_home hinv k hk _).mp h
          · intro hc
            exact List.mem_cons_of_mem j ((shardInv_home hinv k hk _).mpr hc)
        · rw [Function.update_noteq h1]
          by_cases h2 : i' = i
          · subst h2
            rw [Function.update_same, List.mem_erase_of_ne hkj]
            exact shardInv_home hinv k hk _
          · rw [Function.update_noteq h2]
            exact shardInv_home hinv k hk i'

lemma scanLoop_shardInv (dev blockno ticks : Nat) :
    ∀ (fuel : Nat) (i : Fin NBUCKET) (s s' : BCache) (j : Nat),
      ShardInv s →
      bgetScanLoop dev blockno ticks (HASH blockno) fuel i s = some (s', j) →
      ShardInv s'
  | 0, _, _, _, _, _, h => by simp [bgetScanLoop] at h
  | fuel+1, i, s, s', j, hinv, h => by
    simp only [bgetScanLoop] at h
    by_cases hi : i = HASH blockno
    · rw [if_pos hi] at h
      cases hscan : lruScan s.bufs none (s.table i) with
      | some j0 =>
        rw [hscan] at h
        injection h with h1
        injection h1 with hs _
        subst hs
        have hmem : j0 ∈ s.table i := by
          rcases lruScan_mem s.bufs (s.table i) none j0 hscan with h1 | h1
          · exact Option.noConfusion h1
          · exact h1
        exact commit_shardInv s dev blockno ticks i j0 hinv hmem
      | none =>
        rw [hscan] at h
        exact scanLoop_shardInv dev blockno ticks fuel (i + 1) s s' j hinv h
    · rw [if_neg hi] at h
      cases hscan : lruScan s.bufs none (s.table i) with
      | some j0 =>
        rw [hscan] at h
        injection h with h1
        injection h1 with hs _
        subst hs
        have hmem : j0 ∈ s.table i := by
          rcases lruScan_mem s.bufs (s.table i) none j0 hscan with h1 | h1
          · exact Option.noConfusion h1
          · exact h1
        exact commit_shardInv { s with held := i :: s.held } dev blockno ticks i j0 hinv hmem
      | none =>
        rw [hscan] at h
        exact scanLoop_shardInv dev blockno ticks fuel (i + 1)
          { s with held := (i :: s.held).erase i } s' j hinv h

lemma bget_shardInv (s : BCache) (dev blockno ticks : Nat) (s' : BCache) (j : Nat)
    (hinv : ShardInv s) (hrun : bget s dev blockno ticks = some (s', j)) :
    ShardInv s' := by
  unfold bget at hrun
  cases hfind : findHit s.bufs dev blockno (s.table (HASH blockno)) with
  | some j0 =>
    rw [hfind] at hrun
    injection hrun with h1
    injection h1 with hs _
    subst hs
    obtain ⟨hmem, _, _⟩ := findHit_some s.bufs dev blockno _ j0 hfind
    have hlen : j0 < s.bufs.length := shardInv_range hinv _ j0 hmem
    refine ⟨hinv.1, ?_, ?_⟩ <;> dsimp only
    · intro i' k hk
      rw [List.length_set]
      exact shardInv_range hinv i' k hk
    · intro k hk i'
      rw [List.length_set] at hk
      by_cases hkj : k = j0
      · subst hkj
        have hb : (getBuf (s.bufs.set k
            ({ getBuf s.bufs k with
               refcnt := (getBuf s.bufs k).refcnt + 1, slocked := true })) k).blockno
            = (getBuf s.bufs k).blockno := by
          rw [getBuf_set_self s.bufs k _ hlen]
        rw [hb]
        exact shardInv_home hinv k hlen i'
      · have hb : getBuf (s.bufs.set j0
            ({ getBuf s.bufs j0 with
               refcnt := (getBuf s.bufs j0).refcnt + 1, slocked := true })) k
            = getBuf s.bufs k := getBuf_set_ne s.bufs j0 k _ hkj
        rw [hb]
        exact shardInv_home hinv k hk i'
  | none =>
    rw [hfind] at hrun
    exact scanLoop_shardInv dev blockno ticks NBUCKET (HASH blockno)
      { s with held := HASH blockno :: s.held } s' j hinv hrun

lemma getBuf_replicate (n j : Nat) (h : j < n) :
    getBuf (List.replicate n buf0) j = buf0 := by
  unfold getBuf
  simp [List.getD, List.getElem?_replicate, h]

lemma binit_shardInv (nbuf : Nat) : ShardInv (binit nbuf) := by
  refine ⟨?_, ?_, ?_⟩ <;> dsimp only [binit]
  · intro i
    by_cases h : i = 0
    · rw [if_pos h]
      exact (List.nodup_reverse).mpr (List.nodup_range nbuf)
    · rw [if_neg h]
      exact List.nodup_nil
  · intro i k hk
    rw [List.length_replicate]
    by_cases h : i = 0
    · rw [if_pos h] at hk
      rw [List.mem_reverse, List.mem_range] at hk
      exact hk
    · rw [if_neg h] at hk
      exact absurd hk (List.not_mem_nil k)
  · intro k hk i
    rw [List.length_replicate] at hk
    rw [getBuf_replicate nbuf k hk]
    have hh : HASH buf0.blockno = 0 := by decide
    rw [hh]
    by_cases h : i = 0
    · rw [if_pos h]
      rw [List.mem_reverse, List.mem_range]
      exact iff_of_true hk h
    · rw [if_neg h]
      exact iff_of_false (List.not_mem_nil k) h

/-- One unfolding step of the eviction pass. -/
lemma bgetScanLoop_succ (dev blockno ticks : Nat) (id : Fin NBUCKET) (cycle : Nat)
    (i : Fin NBUCKET) (s : BCache) :
    bgetScanLoop dev blockno ticks id (cycle + 1) i s =
      if i = id then
        match lruScan s.bufs none (s.table i) with
        | some j => some (commit s id i j dev blockno ticks, j)
        | none => bgetScanLoop dev blockno ticks id cycle (i + 1) s
      else
        match lruScan s.bufs none (s.table i) with
        | some j =>
          some (commit { s with held := i :: s.held } id i j dev blockno ticks, j)
        | none =>
          bgetScanLoop dev blockno ticks id cycle (i + 1)
            { s with held := (i :: s.held).erase i } := rfl

/-- On a miss whose home shard already contains a slot with reference
count 0, the pass commits during its very first visit. -/
lemma bget_miss_first_iteration (s : BCache) (dev blockno ticks : Nat) (j : Nat)
    (hmiss : findHit s.bufs dev blockno (s.table (HASH blockno)) = none)
    (hscan : lruScan s.bufs none (s.table (HASH blockno)) = some j) :
    bget s dev blockno ticks =
      some (commit { s with held := HASH blockno :: s.held }
        (HASH blockno) (HASH blockno) j dev blockno ticks, j) := by
  unfold bget
  rw [hmiss]
  show bgetScanLoop dev blockno ticks (HASH blockno) (12 + 1) (HASH blockno)
      { s with held := HASH blockno :: s.held } = _
  rw [bgetScanLoop_succ, if_pos rfl]
  dsimp only
  rw [hscan]

/-! Claim theorems. -/

/-- C1 counterexample: the claim that a miss at full capacity evicts the
idle slot with the globally smallest timestamp over all shards is false.
In `exTwo` a miss for (0, 13) (home shard 0) finds no hit, both slots are
idle, slot 1 (in shard 1) has the globally smallest timestamp (5 < 10),
yet the scan evicts slot 0, the best slot of the first shard visited. -/
theorem scan_commits_first_shard_counterexample :
    findHit exTwo.bufs 0 13 (exTwo.table (HASH 13)) = none ∧
    (getBuf exTwo.bufs 0).refcnt = 0 ∧
    (getBuf exTwo.bufs 1).refcnt = 0 ∧
    (getBuf exTwo.bufs 1).timestamp < (getBuf exTwo.bufs 0).timestamp ∧
    (bget exTwo 0 13 100).map (fun r => r.2) = some 0 := by decide

/-- C1 amended: the eviction scan does not track a best candidate across
shards; any successful miss commits inside the first shard of its round
robin order (offset t from the home shard, wrapping) whose list contains
a slot with reference count 0: every shard visited before it held only
busy slots, the victim lies in that shard, is idle, and has the smallest
timestamp among that shard's idle slots only — smaller timestamps in
shards not yet visited are never consulted. -/
theorem scan_commits_to_first_nonempty_shard (s : BCache) (dev blockno ticks : Nat)
    (s' : BCache) (j : Nat)
    (hmiss : findHit s.bufs dev blockno (s.table (HASH blockno)) = none)
    (hrun : bget s dev blockno ticks = some (s', j)) :
    ∃ t : Nat, t < NBUCKET ∧
      (∀ t' : Nat, t' < t → ∀ k ∈ s.table (HASH blockno + (t' : Fin NBUCKET)),
        (getBuf s.bufs k).refcnt ≠ 0) ∧
      j ∈ s.table (HASH blockno + (t : Fin NBUCKET)) ∧
      (getBuf s.bufs j).refcnt = 0 ∧
      (∀ k ∈ s.table (HASH blockno + (t : Fin NBUCKET)), (getBuf s.bufs k).refcnt = 0 →
        (getBuf s.bufs j).timestamp ≤ (getBuf s.bufs k).timestamp) := by
  unfold bget at hrun
  rw [hmiss] at hrun
  exact scanLoop_first_nonempty dev blockno ticks (HASH blockno) NBUCKET (HASH blockno)
    { s with held := HASH blockno :: s.held } s' j hrun

/-- C1 amended, witness: on `exSkip` the home shard 0 holds only a busy
slot and the scan commits in shard 1, evicting slot 1 (timestamp 100)
although shard 2 holds an idle slot with the smaller timestamp 5. -/
theorem scan_commits_to_first_nonempty_shard_witness :
    (getBuf exSkip.bufs 1).refcnt = 0 ∧
    (getBuf exSkip.bufs 0).refcnt ≠ 0 ∧
    (getBuf exSkip.bufs 2).refcnt = 0 ∧
    (getBuf exSkip.bufs 2).timestamp < (getBuf exSkip.bufs 1).timestamp := by
  obtain ⟨t, _, _, _, hidle, _⟩ :=
    scan_commits_to_first_nonempty_shard exSkip 0 13 100 exSkipAfter 1 (by decide) (by rfl)
  exact ⟨hidle, by decide, by decide, by decide⟩

/-- C2: the guard of bio.c lines 95-100 at a foreign shard skips only
when the current thread itself already holds that shard's lock
(`holding`); a lock held by a different thread fails the `holding` test
and the code falls into the same blocking `acquire` used on the home
shard, so a foreign shard held by another thread is waited for, not
skipped — the claimed non-blocking try-then-skip is not what the code
does, and two cross-shard misses can reach the classic two-lock deadlock
the comment at lines 92-94 itself describes. -/
theorem foreign_shard_guard_blocks_on_other_thread :
    foreignShardAction 0 (some 1) = ScanLockAction.blockingAcquire ∧
    holding 0 (some 1) = false ∧
    foreignShardAction 0 (some 0) = ScanLockAction.skip ∧
    foreignShardAction 0 none = ScanLockAction.blockingAcquire := by decide

/-- C3 counterexample: the claim that the timestamp is stamped exactly
when the reference count reaches 0 is false in both directions.  In
`exRel` slot 0 has reference count 2 and timestamp 7; a release at tick
42 leaves the count at 1 (positive) yet stamps the timestamp to 42.  In
`exPin` slot 0 has reference count 1 and timestamp 7; `bunpin` drops the
count to 0 yet leaves the timestamp at 7. -/
theorem stamp_not_tied_to_zero_counterexample :
    (getBuf exRel.bufs 0).refcnt = 2 ∧
    (getBuf exRel.bufs 0).timestamp = 7 ∧
    (brelse exRel 0 42).map
      (fun s => ((getBuf s.bufs 0).refcnt, (getBuf s.bufs 0).timestamp)) = some (1, 42) ∧
    (getBuf (bunpin exPin 0).bufs 0).refcnt = 0 ∧
    (getBuf (bunpin exPin 0).bufs 0).timestamp = 7 := by decide

/-- C3 amended: `brelse` stamps the slot's timestamp with the current
tick on every release, whatever reference count results, and `bunpin`
never touches any timestamp. -/
theorem timestamp_stamped_on_every_release_not_unpin :
    (∀ (s : BCache) (j ticks : Nat) (s' : BCache), j < s.bufs.length →
      brelse s j ticks = some s' → (getBuf s'.bufs j).timestamp = ticks) ∧
    (∀ (s : BCache) (j k : Nat), j < s.bufs.length →
      (getBuf (bunpin s j).bufs k).timestamp = (getBuf s.bufs k).timestamp) := by
  constructor
  · intro s j ticks s' hlen hrun
    unfold brelse at hrun
    by_cases hl : (getBuf s.bufs j).slocked = true
    · rw [if_pos hl] at hrun
      injection hrun with hs
      subst hs
      show (getBuf (s.bufs.set j _) j).timestamp = ticks
      rw [getBuf_set_self s.bufs j _ hlen]
    · rw [if_neg hl] at hrun
      exact Option.noConfusion hrun
  · intro s j k hlen
    by_cases hkj : k = j
    · subst hkj
      unfold bunpin
      dsimp only
      rw [getBuf_set_self s.bufs k _ hlen]
    · unfold bunpin
      dsimp only
      rw [getBuf_set_ne s.bufs j k _ hkj]

/-- C3 amended, witness at a concrete state. -/
theorem timestamp_stamped_witness :
    (getBuf exRelAfter.bufs 0).timestamp = 42 ∧
    (getBuf (bunpin exPin 0).bufs 0).timestamp = (getBuf exPin.bufs 0).timestamp := by
  obtain ⟨h1, h2⟩ := timestamp_stamped_on_every_release_not_unpin
  exact ⟨h1 exRel 0 42 exRelAfter (by decide) (by rfl), h2 exPin 0 0 (by decide)⟩

/-- C4: when the eviction scan succeeds on a miss for (dev, blockno) at
home shard HASH blockno, the returned slot carries the requested device
and block number, valid = false, reference count 1, the current tick as
timestamp, and is held exclusively (sleeplock taken); it is a member of
the home shard's list and of no other; and every shard structural lock
taken by the scan has been released. -/
theorem bget_evict_postcondition (s : BCache) (dev blockno ticks : Nat)
    (s' : BCache) (j : Nat)
    (hinv : ShardInv s) (hheld : s.held = [])
    (hmiss : findHit s.bufs dev blockno (s.table (HASH blockno)) = none)
    (hrun : bget s dev blockno ticks = some (s', j)) :
    getBuf s'.bufs j = ⟨dev, blockno, false, 1, ticks, true⟩ ∧
    j ∈ s'.table (HASH blockno) ∧
    (∀ i : Fin NBUCKET, i ≠ HASH blockno → j ∉ s'.table i) ∧
    s'.held = [] := by
  unfold bget at hrun
  rw [hmiss] at hrun
  have hpost := scanLoop_post dev blockno ticks (HASH blockno) NBUCKET (HASH blockno)
    { s with held := HASH blockno :: s.held } s' j
    (shardInv_nodup hinv) (shardInv_disj hinv) (shardInv_range hinv) hrun
  refine ⟨hpost.1, hpost.2.1, hpost.2.2.1, ?_⟩
  rw [hpost.2.2.2.1]
  show (HASH blockno :: s.held).erase (HASH blockno) = []
  rw [List.erase_cons_head, hheld]

/-- C4, witness: a concrete miss for (1, 14) on `exTwo`. -/
theorem bget_evict_postcondition_witness :
    getBuf exTwoAfter.bufs 1 = ⟨1, 14, false, 1, 50, true⟩ ∧
    1 ∈ exTwoAfter.table (HASH 14) ∧
    1 ∉ exTwoAfter.table 0 ∧
    exTwoAfter.held = [] := by
  obtain ⟨h1, h2, h3, h4⟩ :=
    bget_evict_postcondition exTwo 1 14 50 exTwoAfter 1 (by decide) rfl (by decide) (by rfl)
  exact ⟨h1, h2, h3 0 (by decide), h4⟩

/-- C5: when the home shard's list contains the (unique) slot matching
(dev, blockno), `bget` returns exactly that slot with its reference count
incremented and the sleeplock taken; its device, block number, valid flag
and timestamp are unchanged, every other slot is unchanged, no list
changes (no eviction), no disk transfer, and no structural lock remains
held. -/
theorem bget_hit_returns_cached_slot (s : BCache) (dev blockno ticks : Nat) (j : Nat)
    (hlen : j < s.bufs.length)
    (hmem : j ∈ s.table (HASH blockno))
    (hdev : (getBuf s.bufs j).dev = dev)
    (hbl : (getBuf s.bufs j).blockno = blockno)
    (huniq : ∀ k ∈ s.table (HASH blockno),
      (getBuf s.bufs k).dev = dev → (getBuf s.bufs k).blockno = blockno → k = j) :
    ∃ s', bget s dev blockno ticks = some (s', j) ∧
      s'.table = s.table ∧
      getBuf s'.bufs j = { getBuf s.bufs j with
        refcnt := (getBuf s.bufs j).refcnt + 1, slocked := true } ∧
      (∀ k, k ≠ j → getBuf s'.bufs k = getBuf s.bufs k) ∧
      s'.held = s.held ∧ s'.disk = s.disk := by
  have hfind := findHit_eq s.bufs dev blockno _ j hmem hdev hbl huniq
  refine ⟨{ s with
      bufs := s.bufs.set j ({ getBuf s.bufs j with
        refcnt := (getBuf s.bufs j).refcnt + 1, slocked := true })
      held := (HASH blockno :: s.held).erase (HASH blockno) },
    ?_, rfl, ?_, ?_, ?_, rfl⟩
  · unfold bget
    rw [hfind]
  · exact getBuf_set_self s.bufs j _ hlen
  · exact fun k hkj => getBuf_set_ne s.bufs j k _ hkj
  · show (HASH blockno :: s.held).erase (HASH blockno) = s.held
    rw [List.erase_cons_head]

/-- C5, witness: a concrete hit for (0, 1) on `exTwo`. -/
theorem bget_hit_returns_cached_slot_witness :
    (bget exTwo 0 1 60).map (fun r => (r.2, getBuf r.1.bufs r.2)) =
      some (1, ⟨0, 1, true, 1, 5, true⟩) := by
  obtain ⟨s', hrun, _, hbuf, _, _, _⟩ :=
    bget_hit_returns_cached_slot exTwo 0 1 60 1 (by decide) (by decide) (by decide)
      (by decide) (by decide)
  rw [hrun]
  show some ((1 : Nat), getBuf s'.bufs 1) = _
  rw [hbuf]
  rfl

/-- C6: the eviction scan only ever selects a victim whose reference
count is 0 in the state it scanned. -/
theorem eviction_victim_idle (s : BCache) (dev blockno ticks : Nat)
    (s' : BCache) (j : Nat)
    (hmiss : findHit s.bufs dev blockno (s.table (HASH blockno)) = none)
    (hrun : bget s dev blockno ticks = some (s', j)) :
    (getBuf s.bufs j).refcnt = 0 := by
  unfold bget at hrun
  rw [hmiss] at hrun
  exact scanLoop_victim_idle dev blockno ticks (HASH blockno) NBUCKET (HASH blockno)
    { s with held := HASH blockno :: s.held } s' j hrun

/-- C6, witness: the victim of the concrete miss on `exTwo` was idle. -/
theorem eviction_victim_idle_witness : (getBuf exTwo.bufs 1).refcnt = 0 :=
  eviction_victim_idle exTwo 1 14 50 exTwoAfter 1 (by decide) (by rfl)

/-- C7: a miss in a cache where every listed slot has a positive
reference count makes `bget` panic (`none`): the single round-robin pass
of NBUCKET shard visits finds no candidate, and at cycle count 0 the pass
stops unconditionally — there is no retry, no waiting, no error value
returned to the caller, and no second wrap. -/
theorem capacity_exhaustion_fatal (s : BCache) (dev blockno ticks : Nat)
    (hmiss : findHit s.bufs dev blockno (s.table (HASH blockno)) = none)
    (hbusy : ∀ i : Fin NBUCKET, ∀ k ∈ s.table i, (getBuf s.bufs k).refcnt ≠ 0) :
    bget s dev blockno ticks = none ∧
    ∀ (i : Fin NBUCKET) (s1 : BCache),
      bgetScanLoop dev blockno ticks (HASH blockno) 0 i s1 = none := by
  refine ⟨?_, fun i s1 => rfl⟩
  unfold bget
  rw [hmiss]
  exact scanLoop_busy dev blockno ticks (HASH blockno) NBUCKET (HASH blockno)
    { s with held := HASH blockno :: s.held } hbusy

/-- C7, witness: all slots of `exBusy` are referenced, so a miss panics. -/
theorem capacity_exhaustion_fatal_witness : bget exBusy 1 0 5 = none :=
  (capacity_exhaustion_fatal exBusy 1 0 5 (by decide) (by decide)).1

/-- C8: `bread` performs a disk read exactly when the slot returned by
`bget` is invalid; a valid slot is returned as is — same state, no disk
transfer appended — while an invalid slot is populated (one disk read of
its device and block appended to the log) and marked valid. -/
theorem bread_disk_transfer_iff_invalid (s : BCache) (dev blockno ticks : Nat)
    (s1 : BCache) (j : Nat) (hlen : j < s1.bufs.length)
    (hbget : bget s dev blockno ticks = some (s1, j)) :
    ((getBuf s1.bufs j).valid = true → bread s dev blockno ticks = some (s1, j)) ∧
    ((getBuf s1.bufs j).valid = false →
      ∃ s2, bread s dev blockno ticks = some (s2, j) ∧
        s2.disk = s1.disk ++
          [⟨(getBuf s1.bufs j).dev, (getBuf s1.bufs j).blockno, false⟩] ∧
        (getBuf s2.bufs j).valid = true ∧
        s2.table = s1.table ∧ s2.held = s1.held ∧
        (∀ k, k ≠ j → getBuf s2.bufs k = getBuf s1.bufs k)) := by
  constructor
  · intro hv
    unfold bread
    rw [hbget]
    dsimp only
    rw [if_pos hv]
  · intro hv
    refine ⟨{ s1 with
        bufs := s1.bufs.set j ({ getBuf s1.bufs j with valid := true })
        disk := s1.disk ++
          [⟨(getBuf s1.bufs j).dev, (getBuf s1.bufs j).blockno, false⟩] },
      ?_, rfl, ?_, rfl, rfl, ?_⟩
    · unfold bread
      rw [hbget]
      dsimp only
      rw [if_neg (by rw [hv]; exact Bool.false_ne_true)]
    · show (getBuf (s1.bufs.set j _) j).valid = true
      rw [getBuf_set_self s1.bufs j _ hlen]
    · exact fun k hkj => getBuf_set_ne s1.bufs j k _ hkj

/-- C8, witness: a hit on the valid slot 1 of `exTwo` reads without any
disk transfer and returns the cached state unchanged. -/
theorem bread_disk_transfer_witness : bread exTwo 0 1 60 = some (exTwoHit, 1) :=
  (bread_disk_transfer_iff_invalid exTwo 0 1 60 exTwoHit 1 (by decide) (by rfl)).1
    (by decide)

/-- C9: `bwrite` and `brelse` panic (`none`, mutating nothing) when the
caller does not hold the slot's sleeplock; and a successful `bwrite`
changes no slot field and no list — it only appends one disk write of the
slot's device and block to the log. -/
theorem write_release_require_lock :
    (∀ (s : BCache) (j ticks : Nat), (getBuf s.bufs j).slocked = false →
      bwrite s j = none ∧ brelse s j ticks = none) ∧
    (∀ (s s' : BCache) (j : Nat), bwrite s j = some s' →
      s'.bufs = s.bufs ∧ s'.table = s.table ∧ s'.held = s.held ∧
      s'.disk = s.disk ++ [⟨(getBuf s.bufs j).dev, (getBuf s.bufs j).blockno, true⟩]) := by
  constructor
  · intro s j ticks hun
    constructor
    · unfold bwrite
      rw [if_neg (by rw [hun]; exact Bool.false_ne_true)]
    · unfold brelse
      rw [if_neg (by rw [hun]; exact Bool.false_ne_true)]
  · intro s s' j hrun
    unfold bwrite at hrun
    by_cases hl : (getBuf s.bufs j).slocked = true
    · rw [if_pos hl] at hrun
      injection hrun with hs
      subst hs
      exact ⟨rfl, rfl, rfl, rfl⟩
    · rw [if_neg hl] at hrun
      exact Option.noConfusion hrun

/-- C9, witness at concrete states. -/
theorem write_release_require_lock_witness :
    (bwrite exTwo 0 = none ∧ brelse exTwo 0 9 = none) ∧
    exLockedAfter.disk = exLocked.disk ++ [⟨2, 3, true⟩] := by
  obtain ⟨h1, h2⟩ := write_release_require_lock
  exact ⟨h1 exTwo 0 9 (by decide), (h2 exLocked exLockedAfter 0 (by rfl)).2.2.2⟩

/-- Overwriting one slot without changing its block number preserves the
structural invariant. -/
lemma shardInv_set_same_blockno (s : BCache) (j : Nat) (b : Buf)
    (hinv : ShardInv s) (hlen : j < s.bufs.length)
    (hbl : b.blockno = (getBuf s.bufs j).blockno) :
    ShardInv { s with bufs := s.bufs.set j b } := by
  refine ⟨hinv.1, ?_, ?_⟩ <;> dsimp only
  · intro i' k hk
    rw [List.length_set]
    exact shardInv_range hinv i' k hk
  · intro k hk i'
    rw [List.length_set] at hk
    by_cases hkj : k = j
    · subst hkj
      have hb : (getBuf (s.bufs.set k b) k).blockno = (getBuf s.bufs k).blockno := by
        rw [getBuf_set_self s.bufs k b hlen, hbl]
      rw [hb]
      exact shardInv_home hinv k hlen i'
    · rw [getBuf_set_ne s.bufs j k b hkj]
      exact shardInv_home hinv k hk i'

/-- C10: the home shard is `HASH blockno = blockno % 13`, computed from
the block number alone (the device id plays no part); `binit` places all
slots — whose block number is 0 — in shard 0 and establishes the
invariant that every slot lies in exactly one shard list, the one its
block number hashes to; and every operation (`bget` on hit or miss,
`brelse`, `bpin`, `bunpin`) preserves that invariant. -/
theorem shard_placement_by_blockno_mod :
    (∀ dev dev' blockno : Nat, bgetHome dev blockno = bgetHome dev' blockno) ∧
    (∀ x : Nat, (HASH x).val = x % NBUCKET) ∧
    (∀ nbuf : Nat, ShardInv (binit nbuf)) ∧
    (∀ (s : BCache) (dev blockno ticks : Nat) (s' : BCache) (j : Nat),
      ShardInv s → bget s dev blockno ticks = some (s', j) → ShardInv s') ∧
    (∀ (s : BCache) (j ticks : Nat) (s' : BCache),
      j < s.bufs.length → ShardInv s → brelse s j ticks = some s' → ShardInv s') ∧
    (∀ (s : BCache) (j : Nat), j < s.bufs.length → ShardInv s → ShardInv (bpin s j)) ∧
    (∀ (s : BCache) (j : Nat), j < s.bufs.length → ShardInv s → ShardInv (bunpin s j)) := by
  refine ⟨fun dev dev' blockno => rfl, fun x => rfl, binit_shardInv,
    fun s dev blockno ticks s' j hinv hrun => bget_shardInv s dev blockno ticks s' j hinv hrun,
    ?_, ?_, ?_⟩
  · intro s j ticks s' hlen hinv hrun
    unfold brelse at hrun
    by_cases hl : (getBuf s.bufs j).slocked = true
    · rw [if_pos hl] at hrun
      injection hrun with hs
      subst hs
      exact shardInv_set_same_blockno s j _ hinv hlen rfl
    · rw [if_neg hl] at hrun
      exact Option.noConfusion hrun
  · intro s j hlen hinv
    exact shardInv_set_same_blockno s j _ hinv hlen rfl
  · intro s j hlen hinv
    exact shardInv_set_same_blockno s j _ hinv hlen rfl

/-- C10, witness at concrete states. -/
theorem shard_placement_witness :
    bgetHome 5 27 = bgetHome 9 27 ∧ (HASH 27).val = 27 % NBUCKET ∧
    ShardInv (binit 30) ∧ ShardInv exTwoAfter ∧ ShardInv (bpin exTwo 0) := by
  obtain ⟨h1, h2, h3, h4, _, h6, _⟩ := shard_placement_by_blockno_mod
  exact ⟨h1 5 9 27, h2 27, h3 30, h4 exTwo 1 14 50 exTwoAfter 1 (by decide) (by rfl),
    h6 exTwo 0 (by decide) (by decide)⟩

end BioSpec
